import Mathlib

/-!
Shallow embedding of `version/prop.go` (package `version` of the tailscale
repository): build-identity accessors over the process environment.

The OS environment is passed explicitly: `goos` stands for `runtime.GOOS`,
and the result of `os.Executable()` is an `Option String` (`none` models a
resolution error; the Go code's zero value for the path on error is `""`).
The `sync.Once` caches are modelled by explicit state passing: each memoized
accessor takes the current cache cell and returns the value together with
the updated cell.

Go standard-library string primitives (`strings.Cut`, `strings.Contains`,
`strings.HasSuffix`, `strings.EqualFold`, `strconv.Atoi`, `filepath.Base`)
are embedded over `List Char`.  `strings.EqualFold` is embedded with ASCII
simple case folding (the constants it is applied to in this file are ASCII).
`filepath.Base` for Windows models drive-letter (`C:`) and plain UNC
(`\\host\share`) volume prefixes; the rare DOS-device prefixes (`\\.\`,
`\\?\`) follow the UNC rule here.
-/

namespace Version

/-- Go `strings.Cut(s, ".")` on a list of characters: returns
`(before, after, found)` for the first `'.'`. -/
def cutDot : List Char → List Char × List Char × Bool
  | [] => ([], [], false)
  | c :: cs =>
    if c = '.' then ([], cs, true)
    else
      let r := cutDot cs
      (c :: r.1, r.2.1, r.2.2)

/-- `true` iff `c` is an ASCII decimal digit. -/
def isDigitChar (c : Char) : Bool := '0' ≤ c && c ≤ '9'

/-- Decimal value of a nonempty all-digit string; `none` otherwise
(the digit scan of `strconv.Atoi`). -/
def digitsToNat (s : List Char) : Option Nat :=
  if s = [] then none
  else s.foldl
    (fun acc c =>
      match acc with
      | none => none
      | some n => if isDigitChar c then some (n * 10 + (c.toNat - '0'.toNat)) else none)
    (some 0)

/-- Go `strconv.Atoi`: optional sign, nonempty digit run, 64-bit `int`
range check (out-of-range input is an error, hence `none`). -/
def goAtoi (s : List Char) : Option Int :=
  match s with
  | '-' :: rest =>
    (digitsToNat rest).bind fun n =>
      if (n : Int) ≤ 2 ^ 63 then some (-(n : Int)) else none
  | '+' :: rest =>
    (digitsToNat rest).bind fun n =>
      if (n : Int) ≤ 2 ^ 63 - 1 then some (n : Int) else none
  | _ =>
    (digitsToNat s).bind fun n =>
      if (n : Int) ≤ 2 ^ 63 - 1 then some (n : Int) else none

/-- Go `strings.HasPrefix` / the prefix test used to build `Contains`. -/
def startsWith : List Char → List Char → Bool
  | _, [] => true
  | [], _ :: _ => false
  | c :: cs, d :: ds => c == d && startsWith cs ds

/-- Go `strings.Contains s sub` (substring occurs anywhere in `s`). -/
def containsSub : List Char → List Char → Bool
  | [], sub => startsWith [] sub
  | c :: tl, sub => startsWith (c :: tl) sub || containsSub tl sub

/-- Go `strings.Contains` on `String`. -/
def goContains (s sub : String) : Bool := containsSub s.data sub.data

/-- Go `strings.HasSuffix s post`: length check plus equality of the tail. -/
def hasSuffixGo (s post : List Char) : Bool :=
  decide (post.length ≤ s.length) && (s.drop (s.length - post.length) == post)

/-- Go `strings.HasSuffix` on `String`. -/
def goHasSuffix (s post : String) : Bool := hasSuffixGo s.data post.data

/-- ASCII simple case fold (models the folding `strings.EqualFold` performs
on the ASCII constants compared in this package). -/
def foldChar (c : Char) : Char :=
  if 'A' ≤ c && c ≤ 'Z' then Char.ofNat (c.toNat + 32) else c

/-- Go `strings.EqualFold` restricted to ASCII folding. -/
def equalFold (a b : String) : Bool :=
  a.data.map foldChar == b.data.map foldChar

/-- Go `path/filepath.Base` on Unix (darwin): strip trailing separators,
keep what follows the last separator, with the `"."` and `"/"` fallbacks. -/
def goBase (path : String) : String :=
  if path.data = [] then "."
  else
    let p := (path.data.reverse.dropWhile (fun c => c == '/')).reverse
    let b := (p.reverse.takeWhile (fun c => c != '/')).reverse
    if b = [] then "/" else String.mk b

/-- `true` iff `c` is a Windows path separator. -/
def isWinSep (c : Char) : Bool := c == '\\' || c == '/'

/-- Windows `filepath` volume-name length: a `':'` in second position marks a
drive (length 2); a leading double separator marks a UNC volume
`\\host\share` (up to the separator after the share). -/
def winVolumeLen (l : List Char) : Nat :=
  match l with
  | _ :: ':' :: _ => 2
  | a :: b :: rest =>
    if isWinSep a && isWinSep b then
      let host := rest.takeWhile (fun c => !isWinSep c)
      let rest2 := rest.drop host.length
      match rest2 with
      | _ :: rest3 => 2 + host.length + 1 + (rest3.takeWhile (fun c => !isWinSep c)).length
      | [] => 2 + host.length
    else 0
  | _ => 0

/-- Go `path/filepath.Base` on Windows: strip trailing separators, drop the
volume name, keep what follows the last separator, fallbacks as in Go. -/
def winBase (path : String) : String :=
  if path.data = [] then "."
  else
    let p0 := (path.data.reverse.dropWhile isWinSep).reverse
    let p1 := p0.drop (winVolumeLen p0)
    let b := (p1.reverse.takeWhile (fun c => !isWinSep c)).reverse
    if b = [] then "\\" else String.mk b

/-- `IsMobile` reports whether this is a mobile client build. -/
def IsMobile (goos : String) : Bool :=
  goos == "android" || goos == "ios"

/-- `OS` returns `runtime.GOOS`, except instead of returning `"darwin"` it
returns `"iOS"` or `"macOS"`. -/
def OS (goos : String) : String :=
  if goos = "ios" then "iOS"
  else if goos = "darwin" then "macOS"
  else goos

/-- The pair of flags computed by the one-time `initMacFlavor`. -/
structure MacFlavorCache where
  sysExt : Bool
  sandboxed : Bool
deriving DecidableEq, Repr

/-- Value computed by `initMacFlavor`: on executable-resolution error both
flags stay at their zero value `false`; otherwise the system-extension flag
compares the file name with the fixed bundle identifier and the sandboxed
flag checks the two bundle executable locations. -/
def initMacFlavorVal (exe : Option String) : MacFlavorCache :=
  match exe with
  | none => ⟨false, false⟩
  | some exe =>
    let se := goBase exe == "io.tailscale.ipn.macsys.network-extension"
    ⟨se, se || goHasSuffix exe "/Contents/MacOS/Tailscale"
            || goHasSuffix exe "/Contents/MacOS/IPNExtension"⟩

/-- `IsSandboxedMacOS` with the `macFlavorOnce` cell passed explicitly:
returns the reported flag and the updated cell. -/
def IsSandboxedMacOS (goos : String) (exe : Option String)
    (st : Option MacFlavorCache) : Bool × Option MacFlavorCache :=
  if goos ≠ "darwin" then (false, st)
  else
    let c := match st with
      | some c => c
      | none => initMacFlavorVal exe
    (c.sandboxed, some c)

/-- `IsMacSysExt` with the `macFlavorOnce` cell passed explicitly. -/
def IsMacSysExt (goos : String) (exe : Option String)
    (st : Option MacFlavorCache) : Bool × Option MacFlavorCache :=
  if goos ≠ "darwin" then (false, st)
  else
    let c := match st with
      | some c => c
      | none => initMacFlavorVal exe
    (c.sysExt, some c)

/-- `IsWindowsGUI`: no caching; resolves the executable on every call,
ignoring the error (the path zero value on error is `""`), takes
`filepath.Base` and compares case-insensitively with the two GUI names. -/
def IsWindowsGUI (goos : String) (exeRes : Option String) : Bool :=
  if goos ≠ "windows" then false
  else
    let exe := exeRes.getD ""
    let name := winBase exe
    equalFold name "tailscale-ipn.exe" || equalFold name "tailscale-ipn"

/-- Value computed by `initUnstable` from the build-stamped `Short` string:
cut at the first two dots, `Atoi` the middle field, and report whether
Go `minor % 2 == 1` (Go `%` is truncated division, `Int.tmod`).  Any cut or
parse failure leaves the flag at its zero value `false`. -/
def initUnstableVal (short : String) : Bool :=
  let r1 := cutDot short.data
  if r1.2.2 = false then false
  else
    let r2 := cutDot r1.2.1
    if r2.2.2 = false then false
    else
      match goAtoi r2.1 with
      | none => false
      | some minor => Int.tmod minor 2 == 1

/-- `IsUnstableBuild` with the `isUnstableOnce` cell passed explicitly. -/
def IsUnstableBuild (short : String) (st : Option Bool) : Bool × Option Bool :=
  match st with
  | some v => (v, some v)
  | none =>
    let v := initUnstableVal short
    (v, some v)

/-- The minor-version field of `Short` as `strconv.Atoi` parses it, `none`
when the string has fewer than two dots or the field does not parse.
Stated from the spec's description of the minor field (the text between the
first and second dot); used to state the claims about `IsUnstableBuild`. -/
def minorOf (short : String) : Option Int :=
  let r1 := cutDot short.data
  if r1.2.2 = false then none
  else
    let r2 := cutDot r1.2.1
    if r2.2.2 = false then none
    else goAtoi r2.1

/-- The JSON-serializable version-metadata record. -/
structure Meta where
  majorMinorPatch : String
  isDev : Bool
  short : String
  long : String
  unstableBranch : Bool
  gitCommit : String
  gitDirty : Bool
  extraGitCommit : String
  daemonLong : String
  cap : Int
deriving DecidableEq, Repr

/-- `GetMeta` over the build-stamped constants (externally supplied, passed
as arguments) and the `isUnstableOnce` cell.  Fields absent from the Go
composite literal (`DaemonLong`) stay at their zero value. -/
def GetMeta (majorMinorPatchV shortV longV gitCommitV : String)
    (gitDirtyV : Bool) (extraGitCommitV : String) (capV : Int)
    (stU : Option Bool) : Meta :=
  { majorMinorPatch := majorMinorPatchV
    short := shortV
    long := longV
    gitCommit := gitCommitV
    gitDirty := gitDirtyV
    extraGitCommit := extraGitCommitV
    isDev := goContains shortV "-dev"
    unstableBranch := (IsUnstableBuild shortV stU).1
    daemonLong := ""
    cap := capV }

/-! ### Characterizations of the embedded string primitives -/

theorem startsWith_iff (s p : List Char) :
    startsWith s p = true ↔ ∃ t, s = p ++ t := by
  induction p generalizing s with
  | nil => simp [startsWith]
  | cons d ds ih =>
    cases s with
    | nil => simp [startsWith]
    | cons c cs =>
      simp [startsWith, beq_iff_eq, ih, List.cons.injEq]

theorem containsSub_iff (s sub : List Char) :
    containsSub s sub = true ↔ ∃ a t, s = a ++ sub ++ t := by
  induction s with
  | nil =>
    rw [containsSub, startsWith_iff]
    constructor
    · rintro ⟨t, h⟩
      exact ⟨[], t, by simpa using h⟩
    · rintro ⟨a, t, h⟩
      have h1 := List.append_eq_nil.mp h.symm
      have h2 := List.append_eq_nil.mp h1.1
      exact ⟨[], by simp [h2.2]⟩
  | cons c tl ih =>
    simp only [containsSub, Bool.or_eq_true, startsWith_iff, ih]
    constructor
    · rintro (⟨t, h⟩ | ⟨a, t, h⟩)
      · exact ⟨[], t, by simpa using h⟩
      · exact ⟨c :: a, t, by simp [h]⟩
    · rintro ⟨a, t, h⟩
      cases a with
      | nil =>
        exact Or.inl ⟨t, by simpa using h⟩
      | cons x a =>
        rw [List.cons_append, List.cons_append] at h
        injection h with h1 h2
        exact Or.inr ⟨a, t, h2⟩

theorem goContains_iff (s sub : String) :
    goContains s sub = true ↔ ∃ a b : String, s = a ++ sub ++ b := by
  rw [goContains, containsSub_iff]
  constructor
  · rintro ⟨a, t, h⟩
    refine ⟨String.mk a, String.mk t, String.ext ?_⟩
    simp [String.data_append, h]
  · rintro ⟨a, b, rfl⟩
    exact ⟨a.data, b.data, by simp [String.data_append]⟩

theorem hasSuffixGo_iff (s post : List Char) :
    hasSuffixGo s post = true ↔ ∃ p, s = p ++ post := by
  rw [hasSuffixGo]
  simp only [Bool.and_eq_true, decide_eq_true_eq, beq_iff_eq]
  constructor
  · rintro ⟨hle, hdrop⟩
    refine ⟨s.take (s.length - post.length), ?_⟩
    conv_lhs => rw [← List.take_append_drop (s.length - post.length) s]
    rw [hdrop]
  · rintro ⟨p, rfl⟩
    have hl : (p ++ post).length - post.length = p.length := by
      simp [List.length_append]
    refine ⟨by simp [List.length_append], ?_⟩
    rw [hl, List.drop_left]

theorem goHasSuffix_iff (s post : String) :
    goHasSuffix s post = true ↔ ∃ p : String, s = p ++ post := by
  rw [goHasSuffix, hasSuffixGo_iff]
  constructor
  · rintro ⟨p, h⟩
    exact ⟨String.mk p, String.ext (by simp [String.data_append, h])⟩
  · rintro ⟨p, rfl⟩
    exact ⟨p.data, by simp [String.data_append]⟩

/-- Go's `%` is truncated division: `minor % 2 == 1` holds exactly for the
nonnegative odd integers (a negative odd integer gives `-1`). -/
theorem tmod_two_eq_one_iff (m : Int) :
    Int.tmod m 2 = 1 ↔ Odd m ∧ 0 ≤ m := by
  cases m with
  | ofNat n =>
    rw [show Int.tmod (Int.ofNat n) 2 = Int.ofNat (n % 2) from rfl]
    simp only [Int.odd_iff, Int.ofNat_eq_coe]
    omega
  | negSucc n =>
    rw [show Int.tmod (Int.negSucc n) 2 = -Int.ofNat (Nat.succ n % 2) from rfl]
    simp only [Int.odd_iff, Int.negSucc_eq, Int.ofNat_eq_coe, Nat.succ_eq_add_one]
    omega

/-- `initUnstable` computes the truncated-mod parity of the minor field. -/
theorem initUnstableVal_eq_minorOf (short : String) :
    initUnstableVal short =
      (match minorOf short with
       | none => false
       | some m => Int.tmod m 2 == 1) := by
  rw [initUnstableVal, minorOf]
  cases h1 : (cutDot short.data).2.2 with
  | false => simp
  | true =>
    cases h2 : (cutDot (cutDot short.data).2.1).2.2 with
    | false => simp [h2]
    | true => simp [h2]

/-! ### Claim theorems -/

/-- C1 (counterexample): for the short-version string "1.-3.0" the minor
field "-3" is a valid integer for `strconv.Atoi` and the parsed minor -3 is
odd, yet `isUnstableBuild()` reports false: Go's `%` is truncated division,
so `-3 % 2` is `-1`, not `1`.  This refutes the claim that, whenever the
minor field parses, the result is true iff the parsed minor integer is odd. -/
theorem minor_parity_claim_counterexample :
    minorOf "1.-3.0" = some (-3) ∧ Odd (-3 : Int) ∧
      (IsUnstableBuild "1.-3.0" none).1 = false :=
  ⟨by decide, Int.odd_iff.mpr (by decide), by decide⟩

/-- C1 (amended): `isUnstableBuild()` returns false when the short-version
string has fewer than two "." separators or the minor field is not a valid
integer; otherwise it returns true iff the parsed minor integer is odd and
nonnegative (Go's truncated `%` gives `-1` for a negative odd minor, so
those also yield false).  For "1.2.0", "1.3.0", "1.x.0" and "1" it returns
false, true, false, false respectively. -/
theorem isUnstableBuild_minor_parity (short : String) :
    (minorOf short = none → (IsUnstableBuild short none).1 = false)
    ∧ (∀ m : Int, minorOf short = some m →
        ((IsUnstableBuild short none).1 = true ↔ (Odd m ∧ 0 ≤ m)))
    ∧ (IsUnstableBuild "1.2.0" none).1 = false
    ∧ (IsUnstableBuild "1.3.0" none).1 = true
    ∧ (IsUnstableBuild "1.x.0" none).1 = false
    ∧ (IsUnstableBuild "1" none).1 = false := by
  refine ⟨?_, ?_, by decide, by decide, by decide, by decide⟩
  · intro h
    simp [IsUnstableBuild, initUnstableVal_eq_minorOf, h]
  · intro m hm
    rw [show (IsUnstableBuild short none).1 = initUnstableVal short from rfl,
      initUnstableVal_eq_minorOf, hm]
    simp [tmod_two_eq_one_iff]

/-- C1 (witness): the amended parity rule applied to the concrete
short-version string "1.5.0", whose minor field parses to the nonnegative
odd integer 5. -/
theorem isUnstableBuild_minor_parity_witness :
    minorOf "1.5.0" = some 5 ∧ (IsUnstableBuild "1.5.0" none).1 = true :=
  ⟨by decide,
    ((isUnstableBuild_minor_parity "1.5.0").2.1 5 (by decide)).mpr
      ⟨Int.odd_iff.mpr (by decide), by decide⟩⟩

/-- C2: on macOS, for every resolved executable path,
`isMacSystemExtension()` is true iff the file-name component of the path
equals the fixed network-extension bundle identifier;
`isSandboxedMacProcess()` is true iff the former holds or the path ends
with one of the two bundle executable locations; hence the system-extension
flag implies the sandboxed flag. -/
theorem macFlavor_detection (exe : String) :
    ((IsMacSysExt "darwin" (some exe) none).1 = true ↔
      goBase exe = "io.tailscale.ipn.macsys.network-extension")
    ∧ ((IsSandboxedMacOS "darwin" (some exe) none).1 = true ↔
        ((IsMacSysExt "darwin" (some exe) none).1 = true
          ∨ (∃ p : String, exe = p ++ "/Contents/MacOS/Tailscale")
          ∨ (∃ p : String, exe = p ++ "/Contents/MacOS/IPNExtension")))
    ∧ ((IsMacSysExt "darwin" (some exe) none).1 = true →
        (IsSandboxedMacOS "darwin" (some exe) none).1 = true) := by
  have hse : (IsMacSysExt "darwin" (some exe) none).1
      = (goBase exe == "io.tailscale.ipn.macsys.network-extension") := rfl
  have hsb : (IsSandboxedMacOS "darwin" (some exe) none).1
      = ((goBase exe == "io.tailscale.ipn.macsys.network-extension")
          || goHasSuffix exe "/Contents/MacOS/Tailscale"
          || goHasSuffix exe "/Contents/MacOS/IPNExtension") := rfl
  refine ⟨?_, ?_, ?_⟩
  · rw [hse]
    simp [beq_iff_eq]
  · rw [hsb, hse]
    simp [Bool.or_eq_true, beq_iff_eq, goHasSuffix_iff, or_assoc]
  · intro h
    rw [hsb]
    rw [hse] at h
    simp [h]

/-- C2 (witness): the sandboxed-app executable location makes
`isSandboxedMacProcess()` true. -/
theorem macFlavor_detection_witness :
    (IsSandboxedMacOS "darwin"
      (some "/Applications/Tailscale.app/Contents/MacOS/Tailscale") none).1 = true :=
  ((macFlavor_detection "/Applications/Tailscale.app/Contents/MacOS/Tailscale").2.1).mpr
    (Or.inr (Or.inl ⟨"/Applications/Tailscale.app", rfl⟩))

/-- C3: `isWindowsGUIProcess()` is false unconditionally off Windows; on
Windows it is the case-insensitive comparison of the file-name component of
the resolved executable path against the two accepted GUI executable names;
when resolution fails the comparison fails and the result is false. -/
theorem isWindowsGUI_spec :
    (∀ (goos : String) (exeRes : Option String), goos ≠ "windows" →
        IsWindowsGUI goos exeRes = false)
    ∧ (∀ exe : String, IsWindowsGUI "windows" (some exe)
        = (equalFold (winBase exe) "tailscale-ipn.exe"
            || equalFold (winBase exe) "tailscale-ipn"))
    ∧ IsWindowsGUI "windows" none = false := by
  refine ⟨?_, fun exe => rfl, by decide⟩
  intro goos exeRes h
  simp [IsWindowsGUI, h]

/-- C3 (witness): a GUI-named executable on a non-Windows platform still
reports false. -/
theorem isWindowsGUI_spec_witness :
    IsWindowsGUI "linux" (some "tailscale-ipn.exe") = false :=
  isWindowsGUI_spec.1 "linux" (some "tailscale-ipn.exe") (by decide)

/-- C4: `osDisplayName()` maps the iOS identifier to "iOS", the generic
Apple-platform identifier "darwin" to "macOS", and leaves every other
platform identifier unchanged. -/
theorem osDisplayName_spec :
    OS "ios" = "iOS" ∧ OS "darwin" = "macOS"
    ∧ ∀ goos : String, goos ≠ "ios" → goos ≠ "darwin" → OS goos = goos := by
  refine ⟨rfl, rfl, ?_⟩
  intro goos h1 h2
  simp [OS, h1, h2]

/-- C4 (witness): the pass-through case at the concrete identifier
"linux". -/
theorem osDisplayName_spec_witness : OS "linux" = "linux" :=
  osDisplayName_spec.2.2 "linux" (by decide) (by decide)

/-- C5: `buildMetadataSnapshot()` is a total function of its inputs (no
error condition), its string/boolean provenance fields equal the externally
supplied constants, `UnstableBranch` equals the unstable-branch detector's
result, `Cap` equals the capability-version constant, and the unpopulated
`DaemonLong` stays at its zero value. -/
theorem getMeta_fields (mmp shortV longV gc : String) (gd : Bool)
    (egc : String) (capV : Int) (stU : Option Bool) :
    (GetMeta mmp shortV longV gc gd egc capV stU).majorMinorPatch = mmp
    ∧ (GetMeta mmp shortV longV gc gd egc capV stU).short = shortV
    ∧ (GetMeta mmp shortV longV gc gd egc capV stU).long = longV
    ∧ (GetMeta mmp shortV longV gc gd egc capV stU).gitCommit = gc
    ∧ (GetMeta mmp shortV longV gc gd egc capV stU).gitDirty = gd
    ∧ (GetMeta mmp shortV longV gc gd egc capV stU).extraGitCommit = egc
    ∧ (GetMeta mmp shortV longV gc gd egc capV stU).unstableBranch
        = (IsUnstableBuild shortV stU).1
    ∧ (GetMeta mmp shortV longV gc gd egc capV stU).cap = capV
    ∧ (GetMeta mmp shortV longV gc gd egc capV stU).daemonLong = "" :=
  ⟨rfl, rfl, rfl, rfl, rfl, rfl, rfl, rfl, rfl⟩

/-- C6: `buildMetadataSnapshot().IsDev` is true iff the short-version
string contains "-dev" anywhere; in particular "1.2.0-dev" yields true and
"1.2.0" yields false. -/
theorem getMeta_isDev_iff (mmp shortV longV gc : String) (gd : Bool)
    (egc : String) (capV : Int) (stU : Option Bool) :
    ((GetMeta mmp shortV longV gc gd egc capV stU).isDev = true ↔
      ∃ a b : String, shortV = a ++ "-dev" ++ b)
    ∧ (GetMeta mmp "1.2.0-dev" longV gc gd egc capV stU).isDev = true
    ∧ (GetMeta mmp "1.2.0" longV gc gd egc capV stU).isDev = false :=
  ⟨goContains_iff shortV "-dev", rfl, rfl⟩

/-- C7: on every non-macOS platform both macOS flavor predicates return
false for every executable path and every cache state (the result does not
depend on the path). -/
theorem nonDarwin_flags_false (goos : String) (h : goos ≠ "darwin")
    (exe : Option String) (st : Option MacFlavorCache) :
    (IsSandboxedMacOS goos exe st).1 = false
    ∧ (IsMacSysExt goos exe st).1 = false := by
  simp [IsSandboxedMacOS, IsMacSysExt, h]

/-- C7 (witness): on "linux", even a path that would match the macOS
detection rules reports false for both predicates. -/
theorem nonDarwin_flags_false_witness :
    (IsSandboxedMacOS "linux"
      (some "/x/io.tailscale.ipn.macsys.network-extension") none).1 = false
    ∧ (IsMacSysExt "linux"
      (some "/x/io.tailscale.ipn.macsys.network-extension") none).1 = false :=
  nonDarwin_flags_false "linux" (by decide)
    (some "/x/io.tailscale.ipn.macsys.network-extension") none

/-- C8: with the process environment fixed, repeated calls to the memoized
accessors are idempotent: a second call started from the cache state left
by a first call returns the same value and leaves the cache unchanged.
(The remaining accessors are embedded as pure functions of the fixed
environment, so their determinism holds by definition.) -/
theorem accessors_idempotent (goos shortV : String) (exe : Option String)
    (stM : Option MacFlavorCache) (stU : Option Bool) :
    IsSandboxedMacOS goos exe (IsSandboxedMacOS goos exe stM).2
      = IsSandboxedMacOS goos exe stM
    ∧ IsMacSysExt goos exe (IsMacSysExt goos exe stM).2
      = IsMacSysExt goos exe stM
    ∧ IsUnstableBuild shortV (IsUnstableBuild shortV stU).2
      = IsUnstableBuild shortV stU := by
  refine ⟨?_, ?_, ?_⟩
  · by_cases h : goos = "darwin"
    · subst h
      cases stM <;> simp [IsSandboxedMacOS]
    · simp [IsSandboxedMacOS, h]
  · by_cases h : goos = "darwin"
    · subst h
      cases stM <;> simp [IsMacSysExt]
    · simp [IsMacSysExt, h]
  · cases stU <;> simp [IsUnstableBuild]

/-- C10: `isMobileBuild()` is true exactly for the platform identifiers
"android" and "ios", and false for every other identifier, in particular
"darwin" and "windows". -/
theorem isMobile_spec :
    (∀ goos : String, IsMobile goos = true ↔ (goos = "android" ∨ goos = "ios"))
    ∧ IsMobile "darwin" = false ∧ IsMobile "windows" = false := by
  refine ⟨?_, by decide, by decide⟩
  intro goos
  simp [IsMobile]

end Version
